import Mathlib

set_option maxHeartbeats 1000000

namespace MetaHttp

/-! Shallow embedding of the meta-http client library.

The retry decorator (retryRoundTripper.RoundTrip in client.go) is modelled as a
fuel-indexed loop over two oracles: `inner k` gives the outcome of the k-th call
to the wrapped transport, and `cancel k` tells whether the request context is
observed as done before the delay timer fires in the select following the k-th
attempt. -/

/-- An HTTP response as the retry decorator sees it: only the status code is read. -/
structure Response where
  statusCode : Int
deriving Repr, DecidableEq

/-- Outcome of one call to the inner transport. Per the http.RoundTripper
contract it is either a response with a nil error or a nil response with a
non-nil error. -/
inductive AttemptOut where
  | ok (res : Response)
  | fail (e : String)
deriving Repr, DecidableEq

/-- The `res` component of an inner RoundTrip return value. -/
def rawRes : AttemptOut → Option Response
  | .ok r => some r
  | .fail _ => none

/-- The `err` component of an inner RoundTrip return value. -/
def rawErr : AttemptOut → Option String
  | .ok _ => none
  | .fail e => some e

/-- Errors the retry decorator can return: the inner transport error passed
through, or the context error observed when cancellation fires during the
inter-attempt wait. -/
inductive RetErr where
  | transport (e : String)
  | ctxCanceled
deriving Repr, DecidableEq

/-- Value returned by RoundTrip, or a nil-pointer dereference. -/
inductive ROutcome where
  | ret (res : Option Response) (err : Option RetErr)
  | nilDeref
deriving Repr, DecidableEq

/-- Observable trace of one RoundTrip call: the returned value, the number of
inner attempts performed, and the number of inter-attempt delays fully awaited. -/
structure RTrace where
  outcome : ROutcome
  attempts : Nat
  delays : Nat
deriving Repr, DecidableEq

/-- The guard `err == nil && rrt.validator(res.StatusCode)` with Go
short-circuit evaluation: when `err` is non-nil the right operand is not
evaluated at all; when `err` is nil the status code of `res` is read, which is
a nil-pointer dereference (modelled as `none`) if `res` is nil. -/
def acceptCheck (validator : Int → Bool) (err : Option String) (res : Option Response) :
    Option Bool :=
  match err with
  | some _ => some false
  | none =>
    match res with
    | some r => some (validator r.statusCode)
    | none => none

/-- retryRoundTripper.RoundTrip. `n` is the Go `attempts` counter at loop
entry, `delays` counts delays fully awaited so far, and `fuel` bounds the
number of loop iterations modelled (`none` means the loop was still running
after `fuel` iterations, as happens for non-positive `maxRetries` with a never
accepting validator and no cancellation). -/
def retryRT (maxRetries : Int) (validator : Int → Bool)
    (inner : Nat → AttemptOut) (cancel : Nat → Bool) :
    Nat → Nat → Nat → Option RTrace
  | 0, _, _ => none
  | fuel + 1, n, delays =>
    let out := inner n
    let res := rawRes out
    let err := rawErr out
    if ((n + 1 : Nat) : Int) = maxRetries then
      some ⟨.ret res (err.map RetErr.transport), n + 1, delays⟩
    else
      match acceptCheck validator err res with
      | none => some ⟨.nilDeref, n + 1, delays⟩
      | some true => some ⟨.ret res (err.map RetErr.transport), n + 1, delays⟩
      | some false =>
        if cancel n then
          some ⟨.ret res (some RetErr.ctxCanceled), n + 1, delays⟩
        else
          retryRT maxRetries validator inner cancel fuel (n + 1) (delays + 1)

/-- A whole RoundTrip call: the loop started with `attempts = 0`. -/
def retryRTRun (maxRetries : Int) (validator : Int → Bool)
    (inner : Nat → AttemptOut) (cancel : Nat → Bool) (fuel : Nat) : Option RTrace :=
  retryRT maxRetries validator inner cancel fuel 0 0

/-! Response and error classification (client.sendRequest in client.go).

The JSON serializer is external, so a response body is modelled by what the
two decodes performed by sendRequest can observe of it: either it decodes as
the structured HttpClientErrorResponse payload carrying success, code and
message, or it does not and only its raw text is available. Decoding the body
into the caller output value is a further external step, abstracted by the
`decodeV` oracle returning the decode error message if any. -/

/-- A response body as sendRequest observes it through the serializer. -/
inductive Body where
  | payload (success : Bool) (code : Int) (message : String)
  | raw (text : String)
deriving Repr, DecidableEq

/-- models.ErrorInfo. -/
structure ErrorInfo where
  code : Int
  message : String
deriving Repr, DecidableEq

/-- models.HttpClientErrorResponse. -/
structure HttpClientErrorResponse where
  success : Bool
  err : ErrorInfo
  statusCode : Int
deriving Repr, DecidableEq

/-- The response a completed round trip hands to sendRequest. -/
structure DoResponse where
  status : String
  statusCode : Int
  header : List (String × String)
  body : Body
deriving Repr, DecidableEq

/-- Outcome of `c.HTTPClient.Do(req)`: a transport error or a response. -/
inductive DoResult where
  | fail (e : String)
  | ok (res : DoResponse)
deriving Repr, DecidableEq

/-- models.ResponseData. -/
structure ResponseData where
  status : String
  statusCode : Int
  header : List (String × String)
deriving Repr, DecidableEq

/-- The error value returned by sendRequest: the transport error passed
through, or a pointer to an HttpClientErrorResponse. -/
inductive SendErr where
  | transport (e : String)
  | client (e : HttpClientErrorResponse)
deriving Repr, DecidableEq

/-- client.sendRequest. `decodeV b` is the outcome of decoding body `b` into
the caller output value: `none` on success, the decode error message
otherwise. `unread b` is what io.ReadAll returns from the response body after
the failed structured decode: the decoder has already consumed what it read
into its buffer, so only the unread remainder of the stream is left, and a
json decoder reads chunks of at least 512 bytes, so the remainder is empty
whenever the body arrived within the first chunk. -/
def sendRequest (decodeV : Body → Option String) (unread : Body → String) :
    DoResult → Option ResponseData × Option SendErr
  | .fail e => (none, some (.transport e))
  | .ok res =>
    let response : ResponseData := ⟨res.status, res.statusCode, res.header⟩
    if res.statusCode < 200 ∨ 400 ≤ res.statusCode then
      match res.body with
      | .payload s c m =>
        (some response, some (.client ⟨s, ⟨c, m⟩, res.statusCode⟩))
      | .raw _ =>
        (some response,
         some (.client ⟨false,
           ⟨0, "unknown error, status code: " ++ toString res.statusCode ++ ", response: " ++
             unread res.body⟩,
           res.statusCode⟩))
    else
      match decodeV res.body with
      | none => (some response, none)
      | some msg => (some response, some (.client ⟨false, ⟨0, msg⟩, 500⟩))

/-- The unread remainder of a body the failed decode consumed whole: io.ReadAll
returns the empty string. This is the stream behavior for any body of at most
512 bytes, the minimum chunk a json decoder reads before it can fail. -/
def unreadConsumed : Body → String := fun _ => ""

/-! URL construction (generateUrl in client.go).

Go indexes the last and first byte of the strings; since the separator is the
single-byte character the slash and UTF-8 continuation bytes cannot equal it,
testing the last and first character is equivalent, so the function is
modelled on the character lists underlying the strings. -/

/-- generateUrl, on the character lists of the two strings. -/
def genUrlCore (b r : List Char) : List Char :=
  match b.getLast? with
  | none => r
  | some x =>
    if x = '/' then
      match r with
      | [] => b.dropLast
      | c :: _ => if c = '/' then b.dropLast ++ r else b ++ r
    else
      match r with
      | [] => b
      | c :: _ => if c = '/' then b ++ r else b ++ '/' :: r

/-- generateUrl. -/
def generateUrl (basePath relativePath : String) : String :=
  ⟨genUrlCore basePath.data relativePath.data⟩

/-- A string with its one trailing slash, if any, removed. -/
def dropTrailingSlash (s : String) : String :=
  if s.data.getLast? = some '/' then ⟨s.data.dropLast⟩ else s

/-- A character list with its one leading slash, if any, removed. -/
def dropLeadCore : List Char → List Char
  | '/' :: rest => rest
  | l => l

/-- A string with its one leading slash, if any, removed. -/
def dropLeadingSlash (s : String) : String :=
  ⟨dropLeadCore s.data⟩

/-! The public call methods (client.Get, client.Post, client.Put).

url.ParseRequestURI is Go standard library and is abstracted by a `parse`
oracle returning the scheme and host fields the client inspects, or `none` on
a parse error. http.NewRequestWithContext and json.Marshal are likewise
abstracted by error oracles. The second output component counts the transport
sends performed through HTTPClient.Do. -/

/-- The fields of a parsed URL that the client inspects. -/
structure URL where
  scheme : String
  host : String
deriving Repr, DecidableEq

/-- Errors a call method can return. -/
inductive CallErr where
  | badURL (url : String)
  | invalidURL (url : String)
  | newRequestErr (e : String)
  | marshalErr (e : String)
  | send (e : SendErr)
deriving Repr, DecidableEq

/-- client.Get: build the URL, validate it, build the request, then send. -/
def clientGet (parse : String → Option URL) (newReqErr : Option String)
    (decodeV : Body → Option String) (unread : Body → String) (doOutcome : DoResult)
    (baseURL path : String) : (Option ResponseData × Option CallErr) × Nat :=
  let ul := generateUrl baseURL path
  match parse ul with
  | none => ((none, some (.badURL ul)), 0)
  | some u =>
    if u.host = "" ∨ u.scheme = "" then ((none, some (.badURL ul)), 0)
    else
      match newReqErr with
      | some e => ((none, some (.newRequestErr e)), 0)
      | none =>
        let (rd, er) := sendRequest decodeV unread doOutcome
        ((rd, er.map CallErr.send), 1)

/-- client.Post: build the URL, validate it, marshal the body, build the
request, then send. -/
def clientPost (parse : String → Option URL) (marshalErr : Option String)
    (newReqErr : Option String) (decodeV : Body → Option String)
    (unread : Body → String) (doOutcome : DoResult)
    (baseURL path : String) : (Option ResponseData × Option CallErr) × Nat :=
  let ul := generateUrl baseURL path
  match parse ul with
  | none => ((none, some (.invalidURL ul)), 0)
  | some u =>
    if u.host = "" ∨ u.scheme = "" then ((none, some (.invalidURL ul)), 0)
    else
      match marshalErr with
      | some e => ((none, some (.marshalErr e)), 0)
      | none =>
        match newReqErr with
        | some e => ((none, some (.newRequestErr e)), 0)
        | none =>
          let (rd, er) := sendRequest decodeV unread doOutcome
          ((rd, er.map CallErr.send), 1)

/-- client.Put: identical control flow to Post with the PUT method. -/
def clientPut (parse : String → Option URL) (marshalErr : Option String)
    (newReqErr : Option String) (decodeV : Body → Option String)
    (unread : Body → String) (doOutcome : DoResult)
    (baseURL path : String) : (Option ResponseData × Option CallErr) × Nat :=
  let ul := generateUrl baseURL path
  match parse ul with
  | none => ((none, some (.invalidURL ul)), 0)
  | some u =>
    if u.host = "" ∨ u.scheme = "" then ((none, some (.invalidURL ul)), 0)
    else
      match marshalErr with
      | some e => ((none, some (.marshalErr e)), 0)
      | none =>
        match newReqErr with
        | some e => ((none, some (.newRequestErr e)), 0)
        | none =>
          let (rd, er) := sendRequest decodeV unread doOutcome
          ((rd, er.map CallErr.send), 1)

/-! Header propagation bridge (utils/header_utils.go and models.ContextKeys). -/

/-- The contextKey constants of the models package. -/
inductive ContextKey where
  | userID
  | tenantID
  | requestID
  | merchantAPIKey
  | apiContextKey
  | authorizationKey
  | xForwardedFor
deriving Repr, DecidableEq

/-- The string underlying each contextKey constant, which is also the
canonical header name. -/
def contextKeyStr : ContextKey → String
  | .userID => "user-id"
  | .tenantID => "tenant-id"
  | .requestID => "x-request-id"
  | .merchantAPIKey => "x-api-key"
  | .apiContextKey => "apikey"
  | .authorizationKey => "Authorization"
  | .xForwardedFor => "X-Forwarded-For"

/-- models.ContextKeys, the canonical iteration order of the bridge. -/
def ContextKeys : List ContextKey :=
  [.userID, .tenantID, .requestID, .merchantAPIKey, .apiContextKey,
   .authorizationKey, .xForwardedFor]

/-- A value bound in a context: a string, or a value of any other dynamic
type, on which the string type assertion fails. -/
inductive CtxVal where
  | str (s : String)
  | nonString
deriving Repr, DecidableEq

/-- A request context as the bridge observes it: bindings most recent first,
as produced by nested context.WithValue wrappers. -/
abbrev Ctx := List (ContextKey × CtxVal)

/-- ctx.Value on the modelled context: the most recent binding of the key. -/
def ctxValue : Ctx → ContextKey → Option CtxVal
  | [], _ => none
  | (k, v) :: rest, key => if key = k then some v else ctxValue rest key

/-- One iteration of the FetchHeadersFromContext loop: if the string type
assertion on the context value of the key succeeds, put that string in the map
under the key name. -/
def extractStep (ctx : Ctx) (m : List (String × String)) (key : ContextKey) :
    List (String × String) :=
  match ctxValue ctx key with
  | some (.str v) => m ++ [(contextKeyStr key, v)]
  | _ => m

/-- utils.FetchHeadersFromContext. -/
def FetchHeadersFromContext (ctx : Ctx) : List (String × String) :=
  ContextKeys.foldl (extractStep ctx) []

/-- One iteration of the FetchContextFromHeaders loop: if the header value of
the key is non-empty, layer that binding onto the context. -/
def injectStep (hget : String → String) (c : Ctx) (key : ContextKey) : Ctx :=
  let v := hget (contextKeyStr key)
  if v ≠ "" then (key, .str v) :: c else c

/-- utils.FetchContextFromHeaders. `hget` is the Header.Get view of the
inbound request, returning the empty string for absent headers. -/
def FetchContextFromHeaders (ctx : Ctx) (hget : String → String) : Ctx :=
  ContextKeys.foldl (injectStep hget) ctx

/-- The entry FetchHeadersFromContext contributes for one canonical key. -/
def extractEntry? (ctx : Ctx) (key : ContextKey) : Option (String × String) :=
  match ctxValue ctx key with
  | some (.str v) => some (contextKeyStr key, v)
  | _ => none

theorem acceptCheck_ne_none (validator : Int → Bool) (out : AttemptOut) :
    acceptCheck validator (rawErr out) (rawRes out) ≠ none := by
  cases out <;> simp [acceptCheck, rawErr, rawRes]

/-- Core bound lemma: with positive maxRetries `N` and fuel at least the number
of attempts remaining, the loop terminates within `N` attempts, and whenever it
runs to the bound it returns the raw outcome of attempt `N` having awaited one
delay per earlier attempt and none after the last. -/
theorem retryRT_bounded (N : Nat) (validator : Int → Bool)
    (inner : Nat → AttemptOut) (cancel : Nat → Bool) :
    ∀ fuel n delays, n < N → N - n ≤ fuel →
      ∃ t, retryRT (N : Int) validator inner cancel fuel n delays = some t ∧
        n < t.attempts ∧ t.attempts ≤ N ∧
        (t.attempts = N →
          t.outcome = ROutcome.ret (rawRes (inner (N - 1)))
              ((rawErr (inner (N - 1))).map RetErr.transport) ∧
          t.delays = delays + (N - 1 - n)) := by
  intro fuel
  induction fuel with
  | zero => intro n delays h1 h2; omega
  | succ fuel ih =>
    intro n delays h1 _
    by_cases hb : n + 1 = N
    · have hbC : ((n + 1 : Nat) : Int) = (N : Int) := by exact_mod_cast hb
      refine ⟨⟨ROutcome.ret (rawRes (inner n)) ((rawErr (inner n)).map RetErr.transport),
          n + 1, delays⟩, ?_, by simp, by simp [hb], ?_⟩
      · simp only [retryRT]
        rw [if_pos hbC]
      · intro _
        have hn : N - 1 = n := by omega
        exact ⟨by rw [hn], by simp; omega⟩
    · have hlt : n + 1 < N := by omega
      have hbC : ¬ ((n + 1 : Nat) : Int) = (N : Int) := by exact_mod_cast hb
      rcases hac : acceptCheck validator (rawErr (inner n)) (rawRes (inner n)) with _ | b
      · exact absurd hac (acceptCheck_ne_none validator (inner n))
      · cases b with
        | true =>
          refine ⟨⟨ROutcome.ret (rawRes (inner n)) ((rawErr (inner n)).map RetErr.transport),
              n + 1, delays⟩, ?_, by simp, by simp; omega, ?_⟩
          · simp only [retryRT]
            rw [if_neg hbC, hac]
          · intro h; simp at h; omega
        | false =>
          by_cases hc : cancel n
          · refine ⟨⟨ROutcome.ret (rawRes (inner n)) (some RetErr.ctxCanceled),
                n + 1, delays⟩, ?_, by simp, by simp; omega, ?_⟩
            · simp only [retryRT]
              rw [if_neg hbC, hac, if_pos hc]
            · intro h; simp at h; omega
          · obtain ⟨t, ht, ha1, ha2, ha3⟩ := ih (n + 1) (delays + 1) hlt (by omega)
            refine ⟨t, ?_, by omega, ha2, ?_⟩
            · simp only [retryRT]
              rw [if_neg hbC, hac, if_neg hc]
              exact ht
            · intro h
              obtain ⟨ho, hd⟩ := ha3 h
              exact ⟨ho, by omega⟩

/-- Claim C1: for a retry policy with maxRetries N, 1 or more, the bound check
precedes the acceptance check, so the loop performs at most N attempts, the
run to the bound returns the final attempt raw outcome with no delay awaited
after it and the acceptance predicate never applied to it, and for N = 1
exactly one attempt occurs with zero delays whatever its outcome. -/
theorem retry_final_attempt_as_is (N : Nat) (hN : 1 ≤ N)
    (validator : Int → Bool) (inner : Nat → AttemptOut) (cancel : Nat → Bool) :
    ∃ t, retryRTRun (N : Int) validator inner cancel N = some t ∧
      1 ≤ t.attempts ∧ t.attempts ≤ N ∧
      (t.attempts = N →
        t.outcome = ROutcome.ret (rawRes (inner (N - 1)))
            ((rawErr (inner (N - 1))).map RetErr.transport) ∧
        t.delays = N - 1) ∧
      (N = 1 →
        t = ⟨ROutcome.ret (rawRes (inner 0)) ((rawErr (inner 0)).map RetErr.transport),
             1, 0⟩) := by
  obtain ⟨t, ht, h1, h2, h3⟩ :=
    retryRT_bounded N validator inner cancel N 0 0 (by omega) (by omega)
  refine ⟨t, ht, h1, h2, ?_, ?_⟩
  · intro h
    obtain ⟨ho, hd⟩ := h3 h
    exact ⟨ho, by omega⟩
  · intro h
    subst h
    have hat : t.attempts = 1 := by omega
    obtain ⟨ho, hd⟩ := h3 hat
    cases t with
    | mk o a d =>
      simp_all

/-- Concrete instantiation of retry_final_attempt_as_is at N = 1 with a
transport that always errors. -/
theorem retry_final_attempt_as_is_witness :
    ∃ t, retryRTRun ((1 : Nat) : Int) (fun _ => true)
        (fun _ => AttemptOut.fail "conn reset") (fun _ => false) 1 = some t ∧
      1 ≤ t.attempts ∧ t.attempts ≤ 1 ∧
      (t.attempts = 1 →
        t.outcome = ROutcome.ret (rawRes ((fun _ => AttemptOut.fail "conn reset") (1 - 1)))
            ((rawErr ((fun _ => AttemptOut.fail "conn reset") (1 - 1))).map RetErr.transport) ∧
        t.delays = 1 - 1) ∧
      (1 = 1 →
        t = ⟨ROutcome.ret (rawRes ((fun _ => AttemptOut.fail "conn reset") 0))
              ((rawErr ((fun _ => AttemptOut.fail "conn reset") 0)).map RetErr.transport),
             1, 0⟩) :=
  retry_final_attempt_as_is 1 (by decide) (fun _ => true)
    (fun _ => AttemptOut.fail "conn reset") (fun _ => false)

/-- Claim C2: a transport-level error from the inner send steps the retry loop
exactly as a response rejected by the acceptance predicate does, both waiting
then retrying until the bound; and in the concrete scenario maxRetries 3,
acceptance code equals 200, inner transport erroring twice then returning 200,
exactly 3 attempts occur, the delay is awaited exactly twice, and the final
result is the 200 response with a nil error. -/
theorem retry_error_like_rejection :
    (∀ (maxR : Int) (validator : Int → Bool) (inner : Nat → AttemptOut)
        (cancel : Nat → Bool) (fuel n delays : Nat) (e : String),
      inner n = AttemptOut.fail e → ((n + 1 : Nat) : Int) ≠ maxR → cancel n = false →
        retryRT maxR validator inner cancel (fuel + 1) n delays =
          retryRT maxR validator inner cancel fuel (n + 1) (delays + 1)) ∧
    (∀ (maxR : Int) (validator : Int → Bool) (inner : Nat → AttemptOut)
        (cancel : Nat → Bool) (fuel n delays : Nat) (r : Response),
      inner n = AttemptOut.ok r → validator r.statusCode = false →
        ((n + 1 : Nat) : Int) ≠ maxR → cancel n = false →
        retryRT maxR validator inner cancel (fuel + 1) n delays =
          retryRT maxR validator inner cancel fuel (n + 1) (delays + 1)) ∧
    retryRTRun 3 (fun c => c == 200)
      (fun k => if k < 2 then AttemptOut.fail "conn reset" else AttemptOut.ok ⟨200⟩)
      (fun _ => false) 3 =
      some ⟨ROutcome.ret (some ⟨200⟩) none, 3, 2⟩ := by
  refine ⟨?_, ?_, by decide⟩
  · intro maxR validator inner cancel fuel n delays e hf hb hc
    simp only [retryRT]
    rw [hf, if_neg hb]
    simp [acceptCheck, rawErr, rawRes, hc]
  · intro maxR validator inner cancel fuel n delays r hr hv hb hc
    simp only [retryRT]
    rw [hr, if_neg hb]
    simp [acceptCheck, rawErr, rawRes, hv, hc]

/-- Concrete instantiation of retry_error_like_rejection: one erroring attempt
below the bound with no cancellation steps to the next iteration. -/
theorem retry_error_like_rejection_witness :
    retryRT 2 (fun _ => true) (fun _ => AttemptOut.fail "boom") (fun _ => false) 2 0 0 =
      retryRT 2 (fun _ => true) (fun _ => AttemptOut.fail "boom") (fun _ => false) 1 1 1 :=
  retry_error_like_rejection.1 2 (fun _ => true) (fun _ => AttemptOut.fail "boom")
    (fun _ => false) 1 0 0 "boom" rfl (by decide) rfl

/-- Claim C3: when the context is observed as done during the inter-attempt
wait, the loop returns at once with the response so far and the context error
(not the last transport error), the interrupted delay is not awaited to
completion, and no further attempt is started. -/
theorem retry_cancel_during_wait (maxR : Int) (validator : Int → Bool)
    (inner : Nat → AttemptOut) (cancel : Nat → Bool) (fuel n delays : Nat)
    (hbound : ((n + 1 : Nat) : Int) ≠ maxR)
    (hrej : acceptCheck validator (rawErr (inner n)) (rawRes (inner n)) = some false)
    (hcan : cancel n = true) :
    retryRT maxR validator inner cancel (fuel + 1) n delays =
      some ⟨ROutcome.ret (rawRes (inner n)) (some RetErr.ctxCanceled), n + 1, delays⟩ := by
  simp only [retryRT]
  rw [if_neg hbound, hrej, if_pos hcan]

/-- Concrete instantiation of retry_cancel_during_wait: cancellation observed
after a first failed attempt under maxRetries 3 ends the call with the context
error, one attempt, and zero delays awaited. -/
theorem retry_cancel_during_wait_witness :
    retryRT 3 (fun _ => true) (fun _ => AttemptOut.fail "boom") (fun _ => true) 3 0 0 =
      some ⟨ROutcome.ret (rawRes ((fun _ => AttemptOut.fail "boom") 0))
        (some RetErr.ctxCanceled), 1, 0⟩ :=
  retry_cancel_during_wait 3 (fun _ => true) (fun _ => AttemptOut.fail "boom")
    (fun _ => true) 2 0 0 (by decide) (by decide) rfl

/-- Claim C10: the status code of the response is read only when the inner
send returned a nil error. The short-circuit guard evaluates to false on every
non-nil error without consulting the validator, and consequently no run of the
retry loop over RoundTripper-contract outcomes ever reaches the nil-response
dereference. -/
theorem retry_validator_only_on_success :
    (∀ (validator : Int → Bool) (e : String) (res : Option Response),
      acceptCheck validator (some e) res = some false) ∧
    (∀ (maxR : Int) (validator : Int → Bool) (inner : Nat → AttemptOut)
        (cancel : Nat → Bool) (fuel n delays : Nat) (t : RTrace),
      retryRT maxR validator inner cancel fuel n delays = some t →
        t.outcome ≠ ROutcome.nilDeref) := by
  constructor
  · intro validator e res
    simp [acceptCheck]
  · intro maxR validator inner cancel fuel
    induction fuel with
    | zero => intro n delays t h; simp [retryRT] at h
    | succ fuel ih =>
      intro n delays t h
      simp only [retryRT] at h
      by_cases hb : ((n + 1 : Nat) : Int) = maxR
      · rw [if_pos hb] at h
        cases h
        simp
      · rw [if_neg hb] at h
        rcases hac : acceptCheck validator (rawErr (inner n)) (rawRes (inner n)) with _ | b
        · exact absurd hac (acceptCheck_ne_none validator (inner n))
        · rw [hac] at h
          cases b with
          | true => cases h; simp
          | false =>
            by_cases hc : cancel n
            · rw [if_pos hc] at h
              cases h
              simp
            · rw [if_neg hc] at h
              exact ih (n + 1) (delays + 1) t h

/-- Concrete instantiation of retry_validator_only_on_success: the guard is
false on a transport error whatever the validator, and a concrete one-attempt
run does not end in a nil dereference. -/
theorem retry_validator_only_on_success_witness :
    acceptCheck (fun _ => true) (some "boom") none = some false ∧
    RTrace.outcome ⟨ROutcome.ret none (some (RetErr.transport "boom")), 1, 0⟩ ≠
      ROutcome.nilDeref :=
  ⟨retry_validator_only_on_success.1 (fun _ => true) "boom" none,
   retry_validator_only_on_success.2 1 (fun _ => true) (fun _ => AttemptOut.fail "boom")
     (fun _ => false) 1 0 0 _ (by decide)⟩

/-- Claim C4: a completed round trip with status outside the range 200 to 399
whose body decodes as the structured error payload yields exactly that code
and message, with the status code of the response attached, alongside the
ResponseData holding the status and headers of the response. -/
theorem classify_structured_error (decodeV : Body → Option String)
    (unread : Body → String) (res : DoResponse)
    (s : Bool) (c : Int) (m : String)
    (hcode : res.statusCode < 200 ∨ 400 ≤ res.statusCode)
    (hbody : res.body = Body.payload s c m) :
    sendRequest decodeV unread (DoResult.ok res) =
      (some ⟨res.status, res.statusCode, res.header⟩,
       some (SendErr.client ⟨s, ⟨c, m⟩, res.statusCode⟩)) := by
  simp [sendRequest, hbody, if_pos hcode]

/-- Concrete instantiation of classify_structured_error: a 401 response with a
structured code and message body. -/
theorem classify_structured_error_witness :
    sendRequest (fun _ => none) unreadConsumed
      (DoResult.ok ⟨"401 Unauthorized", 401, [("X", "y")],
        Body.payload false 1401 "invalid api key"⟩) =
      (some ⟨"401 Unauthorized", 401, [("X", "y")]⟩,
       some (SendErr.client ⟨false, ⟨1401, "invalid api key"⟩, 401⟩)) :=
  classify_structured_error (fun _ => none) unreadConsumed
    ⟨"401 Unauthorized", 401, [("X", "y")], Body.payload false 1401 "invalid api key"⟩
    false 1401 "invalid api key" (by decide) rfl

/-- Claim C5, code bug: for a 500 response whose non-JSON body was consumed
whole by the failed structured decode, the synthesized message ends after the
status code with an empty remainder, so the raw body text
"Internal Server Error" is absent from it, contrary to the claim and to the
intent of the message format. -/
theorem classify_unstructured_error_bug :
    sendRequest (fun _ => none) unreadConsumed
      (DoResult.ok ⟨"500 Internal Server Error", 500, [], Body.raw "Internal Server Error"⟩) =
      (some ⟨"500 Internal Server Error", 500, []⟩,
       some (SendErr.client ⟨false,
         ⟨0, "unknown error, status code: 500, response: "⟩, 500⟩)) ∧
    "unknown error, status code: 500, response: " ≠
      "unknown error, status code: 500, response: Internal Server Error" := by
  constructor
  · decide
  · decide

theorem strMk_append (a b : List Char) : (⟨a⟩ : String) ++ (⟨b⟩ : String) = ⟨a ++ b⟩ :=
  rfl

theorem dropLeadCore_cons_ne (c : Char) (r : List Char) (h : c ≠ '/') :
    dropLeadCore (c :: r) = c :: r := by
  unfold dropLeadCore
  split
  · simp_all
  · rfl

theorem getLast?_append_singleton (ys : List Char) (x : Char) :
    (ys ++ [x]).getLast? = some x := by
  rw [List.getLast?_concat]

theorem dropLast_append_singleton (ys : List Char) (x : Char) :
    (ys ++ [x]).dropLast = ys := by
  rw [List.dropLast_concat]

theorem genUrlCore_empty_rel (bd : List Char) (hb : bd ≠ []) :
    genUrlCore bd [] = if bd.getLast? = some '/' then bd.dropLast else bd := by
  rcases List.eq_nil_or_concat bd with h | ⟨ys, x, rfl⟩
  · exact absurd h hb
  · simp only [List.concat_eq_append]
    by_cases hx : x = '/'
    · subst hx
      simp [genUrlCore, getLast?_append_singleton, dropLast_append_singleton]
    · simp [genUrlCore, getLast?_append_singleton, hx]

theorem genUrlCore_eq (bd rd : List Char) (hb : bd ≠ []) (hr : rd ≠ []) :
    genUrlCore bd rd =
      (if bd.getLast? = some '/' then bd.dropLast else bd) ++ '/' :: dropLeadCore rd := by
  rcases List.eq_nil_or_concat bd with h | ⟨ys, x, rfl⟩
  · exact absurd h hb
  · simp only [List.concat_eq_append]
    cases rd with
    | nil => exact absurd rfl hr
    | cons c rest =>
      by_cases hx : x = '/'
      · subst hx
        by_cases hc : c = '/'
        · subst hc
          simp [genUrlCore, getLast?_append_singleton, dropLast_append_singleton, dropLeadCore]
        · simp [genUrlCore, getLast?_append_singleton, dropLast_append_singleton,
                dropLeadCore_cons_ne c rest hc, hc]
      · by_cases hc : c = '/'
        · subst hc
          simp [genUrlCore, getLast?_append_singleton, hx, dropLeadCore]
        · simp [genUrlCore, getLast?_append_singleton, hx,
                dropLeadCore_cons_ne c rest hc, hc]

theorem string_ne_empty_data {s : String} (h : s ≠ "") : s.data ≠ [] := by
  intro hd
  apply h
  cases s
  simp_all

theorem strMk_sep (l1 l2 : List Char) :
    (⟨l1⟩ : String) ++ "/" ++ (⟨l2⟩ : String) = ⟨l1 ++ '/' :: l2⟩ := by
  rw [show ("/" : String) = ⟨['/']⟩ from rfl, strMk_append, strMk_append]
  exact congrArg (fun l => (⟨l⟩ : String)) (by simp)

theorem dropTrailingSlash_data (bd : List Char) :
    dropTrailingSlash ⟨bd⟩ = ⟨if bd.getLast? = some '/' then bd.dropLast else bd⟩ := by
  by_cases h : bd.getLast? = some '/' <;> simp [dropTrailingSlash, h]

theorem dropLeadingSlash_data (rd : List Char) :
    dropLeadingSlash ⟨rd⟩ = ⟨dropLeadCore rd⟩ := rfl

/-- Claim C8: generateUrl yields the relative path verbatim for an empty base,
the base with its trailing separator stripped for an empty relative path, and
otherwise always the stripped base, exactly one separator, and the relative
path without its leading separator, so separators are never doubled or
missing; the three concrete examples of the spec evaluate accordingly. -/
theorem buildURL_separators :
    (∀ r : String, generateUrl "" r = r) ∧
    (∀ b : String, b ≠ "" → generateUrl b "" = dropTrailingSlash b) ∧
    (∀ b r : String, b ≠ "" → r ≠ "" →
      generateUrl b r = dropTrailingSlash b ++ "/" ++ dropLeadingSlash r) ∧
    generateUrl "http://host/" "/path" = "http://host/path" ∧
    generateUrl "http://host" "path" = "http://host/path" ∧
    generateUrl "http://host/" "" = "http://host" := by
  refine ⟨?_, ?_, ?_, by decide, by decide, by decide⟩
  · intro r
    cases r with
    | mk rd => rfl
  · intro b hb
    have hd := string_ne_empty_data hb
    cases b with
    | mk bd =>
      show (⟨genUrlCore bd []⟩ : String) = dropTrailingSlash ⟨bd⟩
      rw [genUrlCore_empty_rel bd hd, dropTrailingSlash_data]
  · intro b r hb hr
    have hbd := string_ne_empty_data hb
    have hrd := string_ne_empty_data hr
    cases b with
    | mk bd =>
      cases r with
      | mk rd =>
        show (⟨genUrlCore bd rd⟩ : String) =
          dropTrailingSlash ⟨bd⟩ ++ "/" ++ dropLeadingSlash ⟨rd⟩
        rw [genUrlCore_eq bd rd hbd hrd, dropTrailingSlash_data, dropLeadingSlash_data,
            strMk_sep]

/-- Concrete instantiation of buildURL_separators on a non-empty base and
relative path. -/
theorem buildURL_separators_witness :
    generateUrl "http://a/b/" "/c" = dropTrailingSlash "http://a/b/" ++ "/" ++ dropLeadingSlash "/c" :=
  buildURL_separators.2.2.1 "http://a/b/" "/c" (by decide) (by decide)

/-- Claim C9: when the constructed URL fails to parse or parses without a host
or a scheme, Get, Post and Put all return an error with zero transport sends
performed and no ResponseData produced, whatever the downstream oracles would
have done. -/
theorem call_badURL_before_io (parse : String → Option URL)
    (marshalE newReqE : Option String) (decodeV : Body → Option String)
    (unread : Body → String) (doOutcome : DoResult) (base path : String)
    (hbad : parse (generateUrl base path) = none ∨
      ∃ u, parse (generateUrl base path) = some u ∧ (u.host = "" ∨ u.scheme = "")) :
    clientGet parse newReqE decodeV unread doOutcome base path =
        ((none, some (CallErr.badURL (generateUrl base path))), 0) ∧
    clientPost parse marshalE newReqE decodeV unread doOutcome base path =
        ((none, some (CallErr.invalidURL (generateUrl base path))), 0) ∧
    clientPut parse marshalE newReqE decodeV unread doOutcome base path =
        ((none, some (CallErr.invalidURL (generateUrl base path))), 0) := by
  rcases hbad with h | ⟨u, hu, hf⟩
  · exact ⟨by simp [clientGet, h], by simp [clientPost, h], by simp [clientPut, h]⟩
  · exact ⟨by simp [clientGet, hu, if_pos hf],
           by simp [clientPost, hu, if_pos hf],
           by simp [clientPut, hu, if_pos hf]⟩

/-- Concrete instantiation of call_badURL_before_io: a relative URL whose
parse fails. -/
theorem call_badURL_before_io_witness :
    clientGet (fun _ => none) none (fun _ => none) unreadConsumed
      (DoResult.ok ⟨"200 OK", 200, [], Body.raw "ok"⟩) "" "relative/path" =
      ((none, some (CallErr.badURL (generateUrl "" "relative/path"))), 0) ∧
    clientPost (fun _ => none) none none (fun _ => none) unreadConsumed
      (DoResult.ok ⟨"200 OK", 200, [], Body.raw "ok"⟩) "" "relative/path" =
      ((none, some (CallErr.invalidURL (generateUrl "" "relative/path"))), 0) ∧
    clientPut (fun _ => none) none none (fun _ => none) unreadConsumed
      (DoResult.ok ⟨"200 OK", 200, [], Body.raw "ok"⟩) "" "relative/path" =
      ((none, some (CallErr.invalidURL (generateUrl "" "relative/path"))), 0) :=
  call_badURL_before_io (fun _ => none) none none (fun _ => none) unreadConsumed
    (DoResult.ok ⟨"200 OK", 200, [], Body.raw "ok"⟩) "" "relative/path" (Or.inl rfl)

theorem mem_ContextKeys (k : ContextKey) : k ∈ ContextKeys := by
  cases k <;> decide

theorem injectFold_value (hget : String → String) (L : List ContextKey) :
    ∀ (ctx : Ctx) (k : ContextKey),
      ctxValue (L.foldl (injectStep hget) ctx) k =
        if k ∈ L ∧ hget (contextKeyStr k) ≠ "" then
          some (CtxVal.str (hget (contextKeyStr k)))
        else ctxValue ctx k := by
  induction L with
  | nil => intro ctx k; simp
  | cons a L ih =>
    intro ctx k
    rw [List.foldl_cons, ih]
    by_cases hka : k = a
    · subst hka
      by_cases hv : hget (contextKeyStr k) = ""
      · simp [injectStep, hv]
      · simp [injectStep, hv, ctxValue]
    · by_cases hv : hget (contextKeyStr a) = ""
      · simp [injectStep, hv, hka]
      · simp [injectStep, hv, hka, ctxValue]

theorem injectFold_mem (hget : String → String) (L : List ContextKey) :
    ∀ (ctx : Ctx) (b : ContextKey × CtxVal), b ∈ L.foldl (injectStep hget) ctx →
      b ∈ ctx ∨ ∃ k, k ∈ L ∧ b = (k, CtxVal.str (hget (contextKeyStr k))) ∧
        hget (contextKeyStr k) ≠ "" := by
  induction L with
  | nil => intro ctx b hb; exact Or.inl hb
  | cons a L ih =>
    intro ctx b hb
    rw [List.foldl_cons] at hb
    rcases ih (injectStep hget ctx a) b hb with h | ⟨k, hk, rfl, hne⟩
    · unfold injectStep at h
      by_cases hv : hget (contextKeyStr a) = ""
      · simp [hv] at h
        exact Or.inl h
      · simp [hv] at h
        rcases h with h | h
        · exact Or.inr ⟨a, by simp, by simp [h], hv⟩
        · exact Or.inl h
    · exact Or.inr ⟨k, by simp [hk], rfl, hne⟩

theorem extractFold_eq_filterMap (ctx : Ctx) (L : List ContextKey) :
    ∀ acc, L.foldl (extractStep ctx) acc = acc ++ L.filterMap (extractEntry? ctx) := by
  induction L with
  | nil => intro acc; simp
  | cons a L ih =>
    intro acc
    rw [List.foldl_cons, ih]
    rcases h : ctxValue ctx a with _ | v
    · simp [extractStep, extractEntry?, h]
    · cases v with
      | str s => simp [extractStep, extractEntry?, h, List.filterMap_cons]
      | nonString => simp [extractStep, extractEntry?, h]

theorem lookup_cons_pair {β : Type} (s k : String) (v : β) (es : List (String × β)) :
    List.lookup s ((k, v) :: es) = if s = k then some v else List.lookup s es := by
  by_cases h : s = k
  · subst h
    simp [List.lookup]
  · have hb : (s == k) = false := beq_eq_false_iff_ne.mpr h
    simp [List.lookup, hb, h]

theorem extractEntry?_fst (ctx : Ctx) (a : ContextKey) (p : String × String)
    (he : extractEntry? ctx a = some p) : p.1 = contextKeyStr a := by
  unfold extractEntry? at he
  rcases hv : ctxValue ctx a with _ | v
  · simp [hv] at he
  · cases v with
    | str t => simp [hv] at he; simp [← he]
    | nonString => simp [hv] at he

theorem lookup_filterMap_not_mem (ctx : Ctx) (s : String) (L : List ContextKey)
    (h : ∀ k ∈ L, contextKeyStr k ≠ s) :
    List.lookup s (L.filterMap (extractEntry? ctx)) = none := by
  induction L with
  | nil => simp
  | cons a L ih =>
    rw [List.filterMap_cons]
    rcases he : extractEntry? ctx a with _ | p
    · exact ih fun k hk => h k (by simp [hk])
    · have hp := extractEntry?_fst ctx a p he
      cases p with
      | mk pn pv =>
        rw [lookup_cons_pair,
            if_neg (by simp at hp; rw [hp]; exact fun hs => h a (by simp) hs.symm)]
        exact ih fun k hk => h k (by simp [hk])

theorem lookup_extract_filterMap (ctx : Ctx) (K : ContextKey) :
    ∀ L : List ContextKey, K ∈ L → (L.map contextKeyStr).Nodup →
      List.lookup (contextKeyStr K) (L.filterMap (extractEntry? ctx)) =
        (extractEntry? ctx K).map Prod.snd := by
  intro L
  induction L with
  | nil => intro h; simp at h
  | cons a L ih =>
    intro hmem hnd
    simp only [List.map_cons, List.nodup_cons] at hnd
    rw [List.filterMap_cons]
    rcases List.mem_cons.mp hmem with rfl | hK
    · rcases he : extractEntry? ctx K with _ | p
      · exact lookup_filterMap_not_mem ctx (contextKeyStr K) L fun k hk hs =>
          hnd.1 (List.mem_map.mpr ⟨k, hk, hs⟩)
      · have hp := extractEntry?_fst ctx K p he
        cases p with
        | mk pn pv =>
          rw [lookup_cons_pair, if_pos (by simp at hp; rw [hp])]
          rfl
    · have hne : contextKeyStr a ≠ contextKeyStr K := by
        intro hs
        exact hnd.1 (hs ▸ List.mem_map.mpr ⟨K, hK, rfl⟩)
      rcases he : extractEntry? ctx a with _ | p
      · exact ih hK hnd.2
      · have hp := extractEntry?_fst ctx a p he
        cases p with
        | mk pn pv =>
          rw [lookup_cons_pair,
              if_neg (by simp at hp; rw [hp]; exact fun hs => hne hs.symm)]
          exact ih hK hnd.2

theorem contextKeyStrs_nodup : (ContextKeys.map contextKeyStr).Nodup := by decide

/-- Claim C6: for every canonical key and non-empty value, injecting inbound
headers into the background context and then extracting recovers the value
under the canonical header name; a key whose header is absent from the
inbound request never appears in the extracted mapping; and both operations
touch only the canonical key set. -/
theorem headers_roundtrip (hget : String → String) (K : ContextKey) (V : String) :
    (V ≠ "" → hget (contextKeyStr K) = V →
      List.lookup (contextKeyStr K)
        (FetchHeadersFromContext (FetchContextFromHeaders [] hget)) = some V) ∧
    (hget (contextKeyStr K) = "" →
      List.lookup (contextKeyStr K)
        (FetchHeadersFromContext (FetchContextFromHeaders [] hget)) = none) ∧
    (∀ (ctx : Ctx) (p : String × String), p ∈ FetchHeadersFromContext ctx →
      ∃ k, k ∈ ContextKeys ∧ p.1 = contextKeyStr k) ∧
    (∀ (ctx : Ctx) (b : ContextKey × CtxVal), b ∈ FetchContextFromHeaders ctx hget →
      b ∈ ctx ∨ b.1 ∈ ContextKeys) := by
  have hext : ∀ ctx : Ctx, FetchHeadersFromContext ctx =
      ContextKeys.filterMap (extractEntry? ctx) := by
    intro ctx
    rw [FetchHeadersFromContext, extractFold_eq_filterMap]
    simp
  have hlook : ∀ ctx : Ctx, List.lookup (contextKeyStr K) (FetchHeadersFromContext ctx) =
      (extractEntry? ctx K).map Prod.snd := by
    intro ctx
    rw [hext]
    exact lookup_extract_filterMap ctx K ContextKeys (mem_ContextKeys K) contextKeyStrs_nodup
  have hval : ctxValue (FetchContextFromHeaders [] hget) K =
      if K ∈ ContextKeys ∧ hget (contextKeyStr K) ≠ "" then
        some (CtxVal.str (hget (contextKeyStr K)))
      else none := by
    rw [FetchContextFromHeaders, injectFold_value]
    rfl
  refine ⟨?_, ?_, ?_, ?_⟩
  · intro hV hg
    rw [hlook]
    unfold extractEntry?
    rw [hval, if_pos ⟨mem_ContextKeys K, by rw [hg]; exact hV⟩, hg]
    rfl
  · intro hg
    rw [hlook]
    unfold extractEntry?
    rw [hval, if_neg (by simp [hg])]
    rfl
  · intro ctx p hp
    rw [hext] at hp
    obtain ⟨k, hk, he⟩ := List.mem_filterMap.mp hp
    refine ⟨k, hk, ?_⟩
    unfold extractEntry? at he
    rcases hv : ctxValue ctx k with _ | v
    · simp [hv] at he
    · cases v with
      | str t => simp [hv] at he; simp [← he]
      | nonString => simp [hv] at he
  · intro ctx b hb
    rcases injectFold_mem hget ContextKeys ctx b hb with h | ⟨k, hk, rfl, _⟩
    · exact Or.inl h
    · exact Or.inr hk

/-- Concrete instantiation of headers_roundtrip: a user id header round-trips
and an absent tenant id header is omitted. -/
theorem headers_roundtrip_witness :
    List.lookup "user-id"
      (FetchHeadersFromContext (FetchContextFromHeaders []
        (fun s => if s = "user-id" then "alice" else ""))) = some "alice" ∧
    List.lookup "tenant-id"
      (FetchHeadersFromContext (FetchContextFromHeaders []
        (fun s => if s = "user-id" then "alice" else ""))) = none :=
  ⟨(headers_roundtrip (fun s => if s = "user-id" then "alice" else "")
      ContextKey.userID "alice").1 (by decide) rfl,
   (headers_roundtrip (fun s => if s = "user-id" then "alice" else "")
      ContextKey.tenantID "").2.1 rfl⟩

/-- Counterexample to claim C7: a context in which a canonical key is bound to
the empty string does not omit that key on extraction; the string type
assertion succeeds on the empty string, so the key appears in the mapping
with an empty value. -/
theorem headers_empty_value_cex :
    List.lookup "user-id"
      (FetchHeadersFromContext [(ContextKey.userID, CtxVal.str "")]) = some "" := by
  decide

/-- Claim C7 as amended: injection treats the empty string as absent, never
attaching a binding with an empty header value, but extraction includes any
key whose context value is a string, the empty string included; only missing
or non-string values are omitted. -/
theorem headers_empty_value_amended :
    (∀ (ctx : Ctx) (hget : String → String) (b : ContextKey × CtxVal),
      b ∈ FetchContextFromHeaders ctx hget →
        b ∈ ctx ∨ ∃ k, k ∈ ContextKeys ∧ b = (k, CtxVal.str (hget (contextKeyStr k))) ∧
          hget (contextKeyStr k) ≠ "") ∧
    (∀ K : ContextKey,
      List.lookup (contextKeyStr K)
        (FetchHeadersFromContext [(K, CtxVal.str "")]) = some "") := by
  constructor
  · intro ctx hget b hb
    exact injectFold_mem hget ContextKeys ctx b hb
  · intro K
    cases K <;> decide

/-- Concrete instantiation of headers_empty_value_amended: a binding injected
from a non-empty header is a new non-empty binding or was already present. -/
theorem headers_empty_value_amended_witness :
    (ContextKey.userID, CtxVal.str "alice") ∈ ([] : Ctx) ∨
      ∃ k, k ∈ ContextKeys ∧
        (ContextKey.userID, CtxVal.str "alice") =
          (k, CtxVal.str ((fun s => if s = "user-id" then "alice" else "") (contextKeyStr k))) ∧
        (fun s => if s = "user-id" then "alice" else "") (contextKeyStr k) ≠ "" :=
  headers_empty_value_amended.1 [] (fun s => if s = "user-id" then "alice" else "")
    (ContextKey.userID, CtxVal.str "alice") (by decide)

end MetaHttp
